import Mathlib

/-!
Verification development for the NetworkConfigParser repository.

The Python sources are shallowly embedded:
* `DocumentLine` objects become `Entry` records; the mutable parent/children
  links become an index-based forest (`parent`/`children` hold positions in
  the flat `dn_list`).
* Stateful parser loops (`parse_braced`, `parse_leading_spaces`,
  `parse_autodetect`) become folds over the input lines with explicit state
  records; an uncaught Python exception becomes the `PRes.err` constructor.
* `str` helpers (`rstrip`, `startswith`, `endswith`, `in`, the two regexes
  used by the parser) are implemented over `List Char`.
-/

namespace NCP

/-! ## Python string primitives -/

/-- Characters stripped by Python's `str.rstrip()` / `str.lstrip()` with no
argument (ASCII whitespace). -/
def pyIsSpace (c : Char) : Bool :=
  c == ' ' || c == '\t' || c == '\n' || c == '\r' ||
  c == Char.ofNat 11 || c == Char.ofNat 12

/-- `needle` is a prefix of `hay` (models `str.startswith`). -/
def listPre : List Char → List Char → Bool
  | [], _ => true
  | _ :: _, [] => false
  | a :: as, b :: bs => a == b && listPre as bs

/-- Models Python `s.startswith(p)`. -/
def pyStartsWith (s p : String) : Bool := listPre p.data s.data

/-- Models Python `s.endswith(p)`. -/
def pyEndsWith (s p : String) : Bool := listPre p.data.reverse s.data.reverse

/-- Models Python `s.rstrip()`. -/
def pyRstrip (s : String) : String := ⟨(s.data.reverse.dropWhile pyIsSpace).reverse⟩

/-- Models Python `s.lstrip()`. -/
def pyLstrip (s : String) : String := ⟨s.data.dropWhile pyIsSpace⟩

/-- `needle` occurs as a contiguous run inside `hay`. -/
def listInfix (n : List Char) : List Char → Bool
  | [] => listPre n []
  | c :: t => listPre n (c :: t) || listInfix n t

/-- Models Python `needle in hay` for strings. -/
def pyContains (hay needle : String) : Bool := listInfix needle.data hay.data

/-- Models `num_leading_spaces` from `parser.py`: counts leading `' '`
characters (the source loop strips one leading space at a time). -/
def num_leading_spaces (s : String) : Nat := (s.data.takeWhile (· == ' ')).length

/-! ## Python exceptions -/

/-- The uncaught exceptions the embedded code can raise. -/
inductive PyErr where
  | typeError
  | valueError
  | indexError
  | attributeError
deriving DecidableEq, Repr

/-- Result of running a piece of Python code: a value, or an uncaught
exception. -/
inductive PRes (α : Type) where
  | ok : α → PRes α
  | err : PyErr → PRes α
deriving DecidableEq, Repr

def PRes.map (f : α → β) : PRes α → PRes β
  | .ok a => .ok (f a)
  | .err e => .err e

/-! ## The node model (`DocumentLine.py`)

A built document is the flat `dn_list`; each `DocumentLine` object is the
`Entry` at its position in that list, and object references (`parent`,
`children`) are positions. -/

structure Entry where
  line_num : Nat
  line : String
  parent : Option Nat
  children : List Nat
deriving DecidableEq, Repr

def defaultEntry : Entry := ⟨0, "", none, []⟩

/-- Dereference a node handle. -/
def getE (doc : List Entry) (i : Nat) : Entry := doc.getD i defaultEntry

/-- Models `dn_stack[-1].children.append(current_dn)`: append child handle `c`
to the children list of the entry at position `p`. -/
def addChildAt : List Entry → Nat → Nat → List Entry
  | [], _, _ => []
  | e :: es, 0, c => { e with children := e.children ++ [c] } :: es
  | e :: es, p+1, c => e :: addChildAt es p c

/-! ## `parse_braced` (`parser.py` lines 52-75) -/

structure BrState where
  dn_list : List Entry
  dn_stack : List Nat
deriving DecidableEq, Repr

/-- One iteration of the `parse_braced` loop body, for input line `raw` with
1-based line counter `lc`. -/
def parseBracedStep (st : BrState) (lc : Nat) (raw : String) : PRes BrState :=
  let line := pyRstrip raw
  let idx := st.dn_list.length
  let (dl, par) :=
    match st.dn_stack.getLast? with
    | some p => (addChildAt st.dn_list p idx, some p)
    | none => (st.dn_list, none)
  let dl := dl ++ [⟨lc, line, par, []⟩]
  let stk :=
    if pyEndsWith line "\x7b" && !(pyStartsWith (pyLstrip line) "#") then
      st.dn_stack ++ [idx]
    else st.dn_stack
  if pyEndsWith line "\x7d" && !(pyStartsWith (pyLstrip line) "#") then
    match stk.getLast? with
    | none => .err .indexError   -- dn_stack.pop() on an empty list
    | some _ => .ok ⟨dl, stk.dropLast⟩
  else .ok ⟨dl, stk⟩

def parseBracedFrom : List String → Nat → BrState → PRes BrState
  | [], _, st => .ok st
  | l :: rest, lc, st =>
    match parseBracedStep st lc l with
    | .err e => .err e
    | .ok st' => parseBracedFrom rest (lc + 1) st'

/-- `parse_braced(config)`. -/
def parse_braced (cfg : List String) : PRes (List Entry) :=
  match parseBracedFrom cfg 1 ⟨[], []⟩ with
  | .err e => .err e
  | .ok st => .ok st.dn_list

/-! ## `parse_autodetect` (`parser.py` lines 16-49) -/

inductive Strategy where
  | braced
  | indentation
deriving DecidableEq, Repr

/-- The strategy-selection loop of `parse_autodetect`, factored out so the
choice is observable.  `lc` is the non-comment line counter, `(o, c, s)` the
counters of the `braced_line_end_chars` dict for `'{'`, `'}'`, `';'`.
The source skips a line when `line.startswith('#') or line.startswith('!')`
(raw line, no stripping), counts trailing characters on `line.rstrip()`,
returns the braced strategy as soon as all three counters exceed 3, and
breaks out (selecting indentation) once 50 non-comment lines were seen. -/
def autodetectChoice : List String → Nat → Nat × Nat × Nat → Strategy
  | [], _, _ => .indentation
  | line :: rest, lc, (o, c, s) =>
    if pyStartsWith line "#" || pyStartsWith line "!" then
      autodetectChoice rest lc (o, c, s)
    else
      let lc := lc + 1
      let o := if pyEndsWith (pyRstrip line) "\x7b" then o + 1 else o
      let c := if pyEndsWith (pyRstrip line) "\x7d" then c + 1 else c
      let s := if pyEndsWith (pyRstrip line) ";" then s + 1 else s
      if o > 3 && c > 3 && s > 3 then .braced
      else if lc == 50 then .indentation
      else autodetectChoice rest lc (o, c, s)

/-- The same selection loop with the comment test abstracted, used to state
claims about the detector (the source's comment test is
`pyStartsWith line "#" || pyStartsWith line "!"` on the raw line). -/
def choiceWith (isComment : String → Bool) : List String → Nat → Nat × Nat × Nat → Strategy
  | [], _, _ => .indentation
  | line :: rest, lc, (o, c, s) =>
    if isComment line then
      choiceWith isComment rest lc (o, c, s)
    else
      let lc := lc + 1
      let o := if pyEndsWith (pyRstrip line) "\x7b" then o + 1 else o
      let c := if pyEndsWith (pyRstrip line) "\x7d" then c + 1 else c
      let s := if pyEndsWith (pyRstrip line) ";" then s + 1 else s
      if o > 3 && c > 3 && s > 3 then .braced
      else if lc == 50 then .indentation
      else choiceWith isComment rest lc (o, c, s)

/-! ## `parse_leading_spaces` (`parser.py` lines 78-153) -/

/-- ASCII word character, for the `\w` class of `re.match(r'\w+-set ', line)`. -/
def isWordChar (c : Char) : Bool := c.isAlpha || c.isDigit || c == '_'

/-- Models `re.match(r'\w+-set ', line) is not None`: a nonempty run of word
characters at the start of the line, directly followed by `"-set "`. -/
def wSetMatch (s : String) : Bool :=
  let run := s.data.takeWhile isWordChar
  !run.isEmpty && listPre "-set ".data (s.data.drop run.length)

/-- Models `re.match(r'^banner \S+ (\S+)', line)`, returning group 1 (the
banner delimiter) when the pattern matches, `none` otherwise. -/
def bannerDelim (s : String) : Option String :=
  if pyStartsWith s "banner " then
    let rest := s.data.drop 7
    let t1 := rest.takeWhile (fun c => !pyIsSpace c)
    if t1.isEmpty then none
    else
      match rest.drop t1.length with
      | ' ' :: r2 =>
        let t2 := r2.takeWhile (fun c => !pyIsSpace c)
        if t2.isEmpty then none else some ⟨t2⟩
      | _ => none
  else none

/-- The loop state of `parse_leading_spaces`.  `dn_stack` holds the values
Python pushes: either a `DocumentLine` handle or `None` (the initial
`current_dn = None` can be pushed).  Calls to `logging.warning` are recorded
in `warnings` by a short tag. -/
structure LSState where
  space_multiplier : Option Nat
  current_space_level : Nat
  dn_list : List Entry
  dn_stack : List (Option Nat)
  current_dn : Option Nat
  banner_delimiter : Option String
  ignore_space_levels : Bool
  warnings : List String
deriving DecidableEq, Repr

def initLS : LSState :=
  { space_multiplier := none, current_space_level := 0, dn_list := [],
    dn_stack := [], current_dn := none, banner_delimiter := none,
    ignore_space_levels := false, warnings := [] }

/-- The `space_multiplier` after the update at lines 93-95 (set on the first
line that starts with a space). -/
def lsMult (s : LSState) (line : String) : Option Nat :=
  if s.space_multiplier.isNone && pyStartsWith line " " then
    some (num_leading_spaces line)
  else s.space_multiplier

/-- The effective new space level for `line`: `floor(leading / multiplier)`
when the multiplier is known (lines 99-102), overridden to 1 inside an
`ignore_space_levels` region for indented or `end-` lines (lines 107-108). -/
def lsEffLevel (s : LSState) (line : String) : Nat :=
  let nl0 :=
    match lsMult s line with
    | some m => num_leading_spaces line / m
    | none => 0
  if s.ignore_space_levels && (pyStartsWith line " " || pyStartsWith line "end-") then 1
  else nl0

/-- Lines 113-130 of the loop body: the stack transitions of the level state
machine.  Deeper: warn when jumping more than one step, push the previous
line's node.  Shallower: truncate the stack to the new level and leave any
`ignore_space_levels` region.  Finally store the new level. -/
def lsLevelTransition (t : LSState) (nl : Nat) : LSState :=
  let s2 :=
    if t.current_space_level < nl then
      { t with
        warnings :=
          if t.current_space_level + 1 ≠ nl then t.warnings ++ ["level_jump"]
          else t.warnings,
        dn_stack := t.dn_stack ++ [t.current_dn] }
    else t
  let s3 :=
    if s2.current_space_level > nl then
      { s2 with dn_stack := s2.dn_stack.take nl, ignore_space_levels := false }
    else s2
  { s3 with current_space_level := nl }

/-- Lines 92-130 of the loop body: multiplier update, level computation,
`ignore_space_levels` handling, then the level transition.  The
`elif ignore_space_levels:` branch formats `str(dn_stack[-1])` into its
warning, which raises `IndexError` when the stack is empty. -/
def lsPhaseA (s : LSState) (line : String) : PRes LSState :=
  let s0 := { s with space_multiplier := lsMult s line }
  let nl := lsEffLevel s line
  if s0.ignore_space_levels && (pyStartsWith line " " || pyStartsWith line "end-") then
    .ok (lsLevelTransition s0 nl)
  else if s0.ignore_space_levels then
    match s0.dn_stack.getLast? with
    | none => .err .indexError
    | some _ =>
      .ok (lsLevelTransition
        { s0 with warnings := s0.warnings ++ ["unterminated_region"],
                  ignore_space_levels := false } nl)
  else .ok (lsLevelTransition s0 nl)

/-- Lines 132-137: create the `DocumentLine` and attach it under the top of
the stack.  When the stack's top is `None` (a pushed initial `current_dn`),
`None.children.append(...)` raises `AttributeError`. -/
def lsAttach (s : LSState) (lc : Nat) (line : String) : PRes LSState :=
  let idx := s.dn_list.length
  match s.dn_stack.getLast? with
  | none =>
    .ok { s with dn_list := s.dn_list ++ [⟨lc, line, none, []⟩], current_dn := some idx }
  | some none => .err .attributeError
  | some (some p) =>
    .ok { s with
          dn_list := addChildAt s.dn_list p idx ++ [⟨lc, line, some p, []⟩],
          current_dn := some idx }

/-- Lines 139-152: banner regions and route-policy / `-set` regions.  A
`banner ` line that fails the delimiter regex raises `AttributeError`
(`None.group(1)`); on a match the new node is pushed and the iteration ends
(`continue`).  Otherwise: a line containing the active banner delimiter pops
the stack (IndexError when empty), then the flatten-region flags are set. -/
def lsPhaseC (s : LSState) (line : String) : PRes LSState :=
  if pyStartsWith line "banner " then
    match bannerDelim line with
    | none => .err .attributeError
    | some d =>
      .ok { s with banner_delimiter := some d, dn_stack := s.dn_stack ++ [s.current_dn] }
  else
    let popped :=
      match s.banner_delimiter with
      | some d =>
        if pyContains line d then
          match s.dn_stack.getLast? with
          | none => PRes.err .indexError
          | some _ =>
            PRes.ok { s with banner_delimiter := none, dn_stack := s.dn_stack.dropLast }
        else PRes.ok s
      | none => PRes.ok s
    match popped with
    | .err e => .err e
    | .ok s1 =>
      let s2 :=
        if pyStartsWith line "route-policy " || wSetMatch line then
          { s1 with ignore_space_levels := true }
        else s1
      let s3 :=
        if s2.ignore_space_levels && pyStartsWith line "end-" then
          { s2 with ignore_space_levels := false }
        else s2
      .ok s3

/-- One iteration of the `parse_leading_spaces` loop body. -/
def lsStep (s : LSState) (lc : Nat) (raw : String) : PRes LSState :=
  let line := pyRstrip raw
  match lsPhaseA s line with
  | .err e => .err e
  | .ok s1 =>
    match lsAttach s1 lc line with
    | .err e => .err e
    | .ok s2 => lsPhaseC s2 line

def lsFrom : List String → Nat → LSState → PRes LSState
  | [], _, st => .ok st
  | l :: rest, lc, st =>
    match lsStep st lc l with
    | .err e => .err e
    | .ok st' => lsFrom rest (lc + 1) st'

/-- `parse_leading_spaces(config)`. -/
def parse_leading_spaces (cfg : List String) : PRes (List Entry) :=
  match lsFrom cfg 1 initLS with
  | .err e => .err e
  | .ok st => .ok st.dn_list

/-- `parse_autodetect(config)`. -/
def parse_autodetect (cfg : List String) : PRes (List Entry) :=
  match autodetectChoice cfg 0 (0, 0, 0) with
  | .braced => parse_braced cfg
  | .indentation => parse_leading_spaces cfg

/-! ## Derived traversals of `DocumentLine` (`DocumentLine.py` lines 121-173)

Python recurses through object references; on the index model the upward
(`ancestors`) and downward (`all_descendants`) recursions are embedded with a
fuel argument.  On well-formed documents (parents point strictly backwards,
children strictly forwards and in range — true of every built forest) a fuel
of `doc.length + 1` reaches the fixpoint, which the stability lemmas below
make precise. -/

def ancF (doc : List Entry) : Nat → Nat → List Nat
  | 0, _ => []
  | fuel + 1, i =>
    match (getE doc i).parent with
    | none => []
    | some p => ancF doc fuel p ++ [p]

/-- `DocumentLine.ancestors`: the ancestor handles ordered from the root down
to the immediate parent. -/
def ancestors (doc : List Entry) (i : Nat) : List Nat := ancF doc (doc.length + 1) i

def descF (doc : List Entry) : Nat → Nat → List Nat
  | 0, _ => []
  | fuel + 1, i =>
    ((getE doc i).children.map (fun c => c :: descF doc fuel c)).flatten

/-- `DocumentLine.all_descendants`: each child followed by its own
descendants, in children order. -/
def all_descendants (doc : List Entry) (i : Nat) : List Nat :=
  descF doc (doc.length + 1) i

/-- `DocumentLine.family(include_ancestors, include_children,
include_all_descendants)` (defaults are all `true` in the source). -/
def family (doc : List Entry) (i : Nat)
    (include_ancestors include_children include_all_descendants : Bool) : List Nat :=
  (if include_ancestors then ancestors doc i else []) ++ [i] ++
  (if include_children && !include_all_descendants then (getE doc i).children
   else if include_children && include_all_descendants then all_descendants doc i
   else [])

/-- Well-formedness of a built document: parent links point to earlier
entries, children links to later in-range entries. -/
def WfDoc (doc : List Entry) : Prop :=
  ∀ i, i < doc.length →
    (∀ p, (getE doc i).parent = some p → p < i) ∧
    (∀ c ∈ (getE doc i).children, i < c ∧ c < doc.length)

instance (doc : List Entry) : Decidable (WfDoc doc) := by
  unfold WfDoc
  infer_instance

/-! ## `has_ip` (`DocumentLine.py` lines 175-212)

Addresses and networks are version-tagged; the numeric value is the integer
form of the address.  A built node's cached `ip_addrs` / `ip_nets`
frozensets become lists (only membership is ever used). -/

inductive IPAddr where
  | v4 : Nat → IPAddr
  | v6 : Nat → IPAddr
deriving DecidableEq, Repr

inductive IPNet where
  | v4 : Nat → Nat → IPNet   -- network address and prefix length
  | v6 : Nat → Nat → IPNet
deriving DecidableEq, Repr

/-- The supported query kinds of `has_ip` (an argument of any other type
raises `ValueError`; that arm is outside the claims). -/
inductive IPObj where
  | addr : IPAddr → IPObj
  | net : IPNet → IPObj
  | intf : IPAddr → IPNet → IPObj
deriving DecidableEq, Repr

/-- `DocumentLine.has_ip` on a built node whose `_create_ip_sets` produced
the sets `ip_addrs` and `ip_nets`: an address query tests membership in
`ip_addrs`, a network query membership in `ip_nets`, an interface query
both. -/
def has_ip (ip_addrs : List IPAddr) (ip_nets : List IPNet) : IPObj → Bool
  | .addr a => ip_addrs.contains a
  | .net n => ip_nets.contains n
  | .intf a n => ip_addrs.contains a && ip_nets.contains n

/-- `ipaddress` network membership (`addr in net`): same IP version and the
address value inside the network's range.  Used only to state the claim —
`has_ip` itself never tests containment. -/
def netContainsAddr : IPNet → IPAddr → Bool
  | .v4 b p, .v4 a => b ≤ a && a < b + 2 ^ (32 - p)
  | .v6 b p, .v6 a => b ≤ a && a < b + 2 ^ (128 - p)
  | _, _ => false

/-! ## `common_line_suppressor` (`search_helpers.py` lines 464-517) -/

/-- `DocumentLine.__eq__`: equal `line_num` and equal `line`. -/
def dlEq (a b : Entry) : Bool := a.line_num == b.line_num && a.line == b.line

/-- One call of the closure returned by `common_line_suppressor`: filter the
family list against the previous (unfiltered) list, and remember the current
unfiltered list.  Returns `(filtered_lines, new previous_lines)`. -/
def suppress_common_lines (previous family_lines : List Entry) :
    List Entry × List Entry :=
  (family_lines.filter (fun i => !(previous.any (fun p => dlEq i p))), family_lines)

/-- A sequence of calls through one `common_line_suppressor` instance,
threading the closure's `previous_lines` state. -/
def suppressorRun (previous : List Entry) : List (List Entry) → List (List Entry)
  | [] => []
  | fam :: rest =>
    (suppress_common_lines previous fam).1 ::
      suppressorRun (suppress_common_lines previous fam).2 rest

/-! ## The search engine (`search_helpers.py`)

Nodes are handles (positions) into a fixed built document `doc`; search
callables receive the handle.  `DocumentLine` equality (used by `in` tests
inside the engine) compares `line_num` and `line` of the referenced
entries. -/

def dlEqIdx (doc : List Entry) (a b : Nat) : Bool := dlEq (getE doc a) (getE doc b)

/-- A `**family_options` dict as passed to `DocumentLine.family`: each field
records whether the key is present, and its value. -/
structure FamilyKw where
  include_ancestors : Option Bool
  include_self : Option Bool
  include_children : Option Bool
  include_all_descendants : Option Bool
deriving DecidableEq, Repr

/-- `any(family_options.values())`. -/
def kwAny (kw : FamilyKw) : Bool :=
  kw.include_ancestors.getD false || kw.include_self.getD false ||
  kw.include_children.getD false || kw.include_all_descendants.getD false

/-- A call `i.family(**family_options)`.  `DocumentLine.family` accepts only
`include_ancestors`, `include_children` and `include_all_descendants`; a
dict containing `include_self` raises
`TypeError: family() got an unexpected keyword argument`. -/
def familyKwCall (doc : List Entry) (i : Nat) (kw : FamilyKw) : PRes (List Nat) :=
  if kw.include_self.isSome then .err .typeError
  else
    .ok (family doc i (kw.include_ancestors.getD true) (kw.include_children.getD true)
      (kw.include_all_descendants.getD true))

/-- The flattening branch of `_find_lines`:
`[convert_line(j) for i in matches for j in s(i.family(**family_options))]`,
threading the suppressor closure state (`s` is the identity when
`suppress_common_ancestors` is false). -/
def flattenFamilies (doc : List Entry) (convert_line : Nat → α) (suppress : Bool)
    (kw : FamilyKw) : List Nat → List Nat → PRes (List α)
  | [], _ => .ok []
  | m :: rest, previous =>
    match familyKwCall doc m kw with
    | .err e => .err e
    | .ok fam =>
      let kept :=
        if suppress then fam.filter (fun x => !(previous.any (fun y => dlEqIdx doc x y)))
        else fam
      let previous' := if suppress then fam else previous
      match flattenFamilies doc convert_line suppress kw rest previous' with
      | .err e => .err e
      | .ok out => .ok (kept.map convert_line ++ out)

/-- The nested branch of `_find_lines`:
`[[convert_line(j) for j in i.family(**family_options)] for i in matches]`
(no suppressor). -/
def nestedFamilies (doc : List Entry) (convert_line : Nat → α) (kw : FamilyKw) :
    List Nat → PRes (List (List α))
  | [] => .ok []
  | m :: rest =>
    match familyKwCall doc m kw with
    | .err e => .err e
    | .ok fam =>
      match nestedFamilies doc convert_line kw rest with
      | .err e => .err e
      | .ok out => .ok (fam.map convert_line :: out)

/-- `_find_lines(doc_lines, search_fn, convert_result, convert_family,
flatten_family, suppress_common_ancestors, **family_options)`.  Returns the
flat list (`Sum.inl`) or the list of lists (`Sum.inr`). -/
def _find_lines (doc : List Entry) (doc_lines : List Nat) (search_fn : Nat → Bool)
    (convert_result convert_family : Nat → α)
    (flatten_family suppress_common_ancestors : Bool) (kw : FamilyKw) :
    PRes (List α ⊕ List (List α)) :=
  let matchList := doc_lines.filter search_fn
  if !(kwAny kw) then
    if flatten_family then .ok (.inl (matchList.map convert_result))
    else .ok (.inr (matchList.map (fun i => [convert_result i])))
  else
    let convert_line : Nat → α := fun j =>
      if matchList.any (fun m => dlEqIdx doc j m) then convert_result j else convert_family j
    if flatten_family then
      match flattenFamilies doc convert_line suppress_common_ancestors kw matchList [] with
      | .err e => .err e
      | .ok out => .ok (.inl out)
    else
      match nestedFamilies doc convert_line kw matchList with
      | .err e => .err e
      | .ok out => .ok (.inr out)

/-- The `search_spec` argument of `find_lines`: a single callable or an
iterable of callables.  (Specs that raise `ValueError` — iterables holding
non-callables, plain non-callables — are outside every claim and omitted
from the embedding.) -/
inductive SearchSpec where
  | cb : (Nat → Bool) → SearchSpec
  | iter : List (Nat → Bool) → SearchSpec

/-- The chained-search loop of `find_lines`: for every callable except the
last, `_find_lines(doc_lines, search_fn, suppress_common_ancestors=False,
include_ancestors=False, include_self=False, include_children=True,
include_all_descendants=recurse_search)`; an empty stage returns `None`. -/
def chainStages (doc : List Entry) (recurse_search : Bool) :
    List (Nat → Bool) → List Nat → PRes (Option (List Nat))
  | [], dls => .ok (some dls)
  | f :: rest, dls =>
    match _find_lines doc dls f id id true false
        ⟨some false, some false, some true, some recurse_search⟩ with
    | .err e => .err e
    | .ok (.inl l) =>
      if l.length = 0 then .ok none
      else chainStages doc recurse_search rest l
    | .ok (.inr _) => .ok none   -- not reachable: flatten_family is true

/-- `find_lines(doc_lines, search_spec, recurse_search, convert_result,
convert_family, flatten_family, suppress_common_ancestors,
include_ancestors, include_children, include_all_descendants)`.
`.ok none` is Python's `None` ("no result"). -/
def find_lines (doc : List Entry) (doc_lines : List Nat) (search_spec : SearchSpec)
    (recurse_search : Bool) (convert_result convert_family : Nat → α)
    (flatten_family suppress_common_ancestors : Bool)
    (include_ancestors include_children include_all_descendants : Bool) :
    PRes (Option (List α ⊕ List (List α))) :=
  let finish := fun (dls : List Nat) (f : Nat → Bool) =>
    match _find_lines doc dls f convert_result convert_family flatten_family
        suppress_common_ancestors
        ⟨some include_ancestors, none, some include_children,
          some include_all_descendants⟩ with
    | .err e => .err e
    | .ok r =>
      let n := match r with | .inl l => l.length | .inr ll => ll.length
      if n = 0 then .ok none else .ok (some r)
  match search_spec with
  | .cb f => finish doc_lines f
  | .iter fs =>
    match fs.getLast? with
    | none => .err .indexError   -- search_spec[-1] on an empty iterable
    | some fLast =>
      match chainStages doc recurse_search fs.dropLast doc_lines with
      | .err e => .err e
      | .ok none => .ok none
      | .ok (some dls) => finish dls fLast

/-! ## `find_parent_objects` (`search_helpers.py` lines 329-383, 450-462) -/

/-- A `parentspec`/`childspec` value: a `str`, a compiled pattern (modeled
by its match function), or a list.  Python's `isiterable` is true for `str`
and `list` (strings are iterable), false for compiled patterns. -/
inductive ReSpec where
  | str : String → ReSpec
  | pat : (String → Bool) → ReSpec
  | list : List ReSpec → ReSpec

def ReSpec.isiterable : ReSpec → Bool
  | .str _ => true
  | .pat _ => false
  | .list _ => true

/-- `len(spec)` for iterable specs (characters of a `str`). -/
def ReSpec.pyLen : ReSpec → Nat
  | .str s => s.data.length
  | .pat _ => 0
  | .list xs => xs.length

/-- `[i for i in spec]`: iterating a `str` yields its characters as
1-character strings. -/
def ReSpec.pyItems : ReSpec → List ReSpec
  | .str s => s.data.map (fun c => .str ⟨[c]⟩)
  | .pat _ => []
  | .list xs => xs

/-- `_check_parentspec_childspec(parentspec, childspec)`. -/
def _check_parentspec_childspec (parentspec : ReSpec) (childspec : Option ReSpec) :
    PRes (ReSpec × Option ReSpec) :=
  if parentspec.isiterable && childspec.isSome then .err .valueError
  else if parentspec.isiterable && !(parentspec.pyLen == 2) then .err .valueError
  else if parentspec.isiterable then
    .ok (parentspec.pyItems.getD 0 (.str ""), some (parentspec.pyItems.getD 1 (.str "")))
  else .ok (parentspec, childspec)

/-- `re_search_dl(spec, node) is not None`.  The regex engine for textual
patterns is abstracted by `reSem`; no claim depends on it.  In the source,
`re.search` on a list raises `TypeError` — that case is unreachable in every
claim and mapped to a non-match here. -/
def reSearchSpec (reSem : String → String → Bool) : ReSpec → String → Bool
  | .str r, s => reSem r s
  | .pat f, s => f s
  | .list _, _ => false

/-- `find_parent_objects(doc_lines, parentspec, childspec, recurse,
negative_child_match)`. -/
def find_parent_objects (reSem : String → String → Bool) (doc : List Entry)
    (doc_lines : List Nat) (parentspec : ReSpec) (childspec : Option ReSpec)
    (recurse : Bool) (negative_child_match : Bool) : PRes (List Nat) :=
  match _check_parentspec_childspec parentspec childspec with
  | .err e => .err e
  | .ok (ps, cs) =>
    let child_getter : Nat → List Nat :=
      if recurse then all_descendants doc else fun i => (getE doc i).children
    let search_fn : Nat → Bool := fun o =>
      let parent_match := reSearchSpec reSem ps (getE doc o).line
      let child_match0 := (child_getter o).any fun c =>
        match cs with
        | some cspec => reSearchSpec reSem cspec (getE doc c).line
        | none => false   -- source: re.search(None, ...) raises; unreachable in the claims
      let child_match := if negative_child_match then !child_match0 else child_match0
      parent_match && child_match
    match find_lines doc doc_lines (.cb search_fn) recurse id id true true
        false false false with
    | .err e => .err e
    | .ok none => .ok []
    | .ok (some (.inl l)) => .ok l
    | .ok (some (.inr _)) => .ok []   -- not reachable: flatten_family is true

/-! ## Shared concrete documents for the claim theorems -/

/-- The forest built by `parse_leading_spaces(["a", " b", "  c"])`:
a root, a child, a grandchild. -/
def doc3 : List Entry := [⟨1, "a", none, [1]⟩, ⟨2, " b", some 0, [2]⟩, ⟨3, "  c", some 1, []⟩]

/-- A two-node parent/child document for the search claims. -/
def docP : List Entry := [⟨1, "p", none, [1]⟩, ⟨2, "c", some 0, []⟩]

/-- Three family lists where node `(1, "a")` reappears in the third list
after a second list that did not contain it. -/
def cFams : List (List Entry) :=
  [[⟨1, "a", none, []⟩, ⟨2, "b", none, []⟩], [⟨3, "c", none, []⟩], [⟨1, "a", none, []⟩]]

/-- Twelve lines that are comments under the claim's trimmed-prefix comment
test but not under the code's raw `startswith` test, with trailing `{`,
`}`, `;` counts of four each. -/
def c9cfg : List String :=
  [" #\x7b", " #\x7b", " #\x7b", " #\x7b", " #\x7d", " #\x7d", " #\x7d", " #\x7d", " #;", " #;", " #;", " #;"]

/-- The state of `parse_leading_spaces` after `["a", " b"]`. -/
def sW : LSState :=
  ⟨some 1, 1, [⟨1, "a", none, [1]⟩, ⟨2, " b", some 0, []⟩], [some 0], some 1, none,
    false, []⟩

/-- The state after additionally processing `"   c"` (a two-step jump). -/
def sW' : LSState :=
  ⟨some 1, 3, [⟨1, "a", none, [1]⟩, ⟨2, " b", some 0, [2]⟩, ⟨3, "   c", some 1, []⟩],
    [some 0, some 1], some 2, none, false, ["level_jump"]⟩

/-- The `line_num` fields of a document, in list order. -/
def lineNums (l : List Entry) : List Nat := l.map (fun e => e.line_num)

/-- A line that opens a brace block: after `rstrip` it ends with `{` and its
left-stripped text does not start with `#`. -/
def bracedOpenLine (raw : String) : Bool :=
  pyEndsWith (pyRstrip raw) "\x7b" && !(pyStartsWith (pyLstrip (pyRstrip raw)) "#")

/-- A line that closes a brace block. -/
def bracedCloseLine (raw : String) : Bool :=
  pyEndsWith (pyRstrip raw) "\x7d" && !(pyStartsWith (pyLstrip (pyRstrip raw)) "#")

/-- Prefix balance relative to `d` already-open blocks: in every prefix the
closing lines never outnumber `d` plus the opening lines. -/
def closesLe (cfg : List String) (d : Nat) : Prop :=
  ∀ k, (cfg.take k).countP bracedCloseLine ≤ d + (cfg.take k).countP bracedOpenLine

/-! ## Theorems -/

theorem getE_oob (doc : List Entry) (i : Nat) (h : doc.length ≤ i) :
    getE doc i = defaultEntry := by
  simp [getE, List.getD, List.getElem?_eq_none h]

theorem ancF_succ_none (doc : List Entry) (fuel i : Nat)
    (hp : (getE doc i).parent = none) : ancF doc (fuel + 1) i = [] := by
  simp [ancF, hp]

theorem ancF_succ_some (doc : List Entry) (fuel i p : Nat)
    (hp : (getE doc i).parent = some p) :
    ancF doc (fuel + 1) i = ancF doc fuel p ++ [p] := by
  simp [ancF, hp]

theorem descF_succ (doc : List Entry) (fuel i : Nat) :
    descF doc (fuel + 1) i =
      ((getE doc i).children.map (fun c => c :: descF doc fuel c)).flatten := rfl

/-- A parent link out of a well-formed entry stays in range and points
backwards. -/
theorem parent_lt (doc : List Entry) (hwf : WfDoc doc) (i p : Nat)
    (hp : (getE doc i).parent = some p) : p < i ∧ i < doc.length := by
  by_cases hi : i < doc.length
  · exact ⟨(hwf i hi).1 p hp, hi⟩
  · exfalso
    rw [getE_oob doc i (Nat.le_of_not_lt hi)] at hp
    simp [defaultEntry] at hp

theorem ancF_stable (doc : List Entry) (hwf : WfDoc doc) :
    ∀ i f₁ f₂, i < f₁ → i < f₂ → ancF doc f₁ i = ancF doc f₂ i := by
  intro i
  induction i using Nat.strong_induction_on with
  | _ i ih =>
    intro f₁ f₂ h₁ h₂
    cases f₁ with
    | zero => omega
    | succ a =>
      cases f₂ with
      | zero => omega
      | succ b =>
        cases hp : (getE doc i).parent with
        | none => rw [ancF_succ_none doc a i hp, ancF_succ_none doc b i hp]
        | some p =>
          have hpi : p < i := (parent_lt doc hwf i p hp).1
          rw [ancF_succ_some doc a i p hp, ancF_succ_some doc b i p hp,
            ih p hpi a b (by omega) (by omega)]

theorem descF_stable (doc : List Entry) (hwf : WfDoc doc) :
    ∀ n i f₁ f₂, doc.length - i ≤ n → doc.length - i ≤ f₁ → doc.length - i ≤ f₂ →
      descF doc f₁ i = descF doc f₂ i := by
  intro n
  induction n with
  | zero =>
    intro i f₁ f₂ hn h₁ h₂
    have hi : doc.length ≤ i := by omega
    have hch : (getE doc i).children = [] := by
      rw [getE_oob doc i hi]; rfl
    cases f₁ <;> cases f₂ <;> simp [descF, hch]
  | succ n ih =>
    intro i f₁ f₂ hn h₁ h₂
    by_cases hi : i < doc.length
    · have hpos : 1 ≤ doc.length - i := by omega
      obtain ⟨a, rfl⟩ : ∃ a, f₁ = a + 1 := by
        cases f₁ with
        | zero => omega
        | succ a => exact ⟨a, rfl⟩
      obtain ⟨b, rfl⟩ : ∃ b, f₂ = b + 1 := by
        cases f₂ with
        | zero => omega
        | succ b => exact ⟨b, rfl⟩
      simp only [descF]
      congr 1
      apply List.map_congr_left
      intro c hc
      have hcb := (hwf i hi).2 c hc
      have : descF doc a c = descF doc b c := by
        apply ih c a b <;> omega
      rw [this]
    · have hi' : doc.length ≤ i := Nat.le_of_not_lt hi
      have hch : (getE doc i).children = [] := by
        rw [getE_oob doc i hi']; rfl
      cases f₁ <;> cases f₂ <;> simp [descF, hch]

/-- On a well-formed document, `ancestors` satisfies the source recursion
`parent.ancestors + [parent]`. -/
theorem ancestors_eq_parent (doc : List Entry) (hwf : WfDoc doc) (i p : Nat)
    (hp : (getE doc i).parent = some p) :
    ancestors doc i = ancestors doc p ++ [p] := by
  have hip := parent_lt doc hwf i p hp
  show ancF doc (doc.length + 1) i = ancF doc (doc.length + 1) p ++ [p]
  rw [ancF_succ_some doc doc.length i p hp]
  congr 1
  exact ancF_stable doc hwf p doc.length (doc.length + 1) (by omega) (by omega)

theorem ancestors_eq_root (doc : List Entry) (i : Nat)
    (hp : (getE doc i).parent = none) : ancestors doc i = [] := by
  show ancF doc (doc.length + 1) i = []
  exact ancF_succ_none doc doc.length i hp

/-- On a well-formed document, `all_descendants` satisfies the source
recursion: each child, followed by that child's descendants. -/
theorem all_descendants_eq (doc : List Entry) (hwf : WfDoc doc) (i : Nat) :
    all_descendants doc i =
      ((getE doc i).children.map (fun c => c :: all_descendants doc c)).flatten := by
  show descF doc (doc.length + 1) i = _
  rw [descF_succ]
  congr 1
  apply List.map_congr_left
  intro c _
  exact congrArg (c :: ·)
    (descF_stable doc hwf (doc.length - c) c doc.length (doc.length + 1)
      (by omega) (by omega) (by omega))

/-! ## Claim C1 -/

/-- C1: the claimed chain semantics of `find_lines` — apply predicate 0,
expand matches to descendants, feed the next predicate, `None` on an empty
stage — do not hold on the code.  Whenever a non-final predicate has at
least one match, the stage's call
`_find_lines(..., include_self=False, ...)` forwards `include_self` to
`DocumentLine.family`, which has no such parameter, and the search dies with
`TypeError` instead of producing the next candidate set.  At the one-node
document with two always-true predicates the result is the `TypeError`; only
the zero-match early-`None` part of the claim survives (second conjunct). -/
theorem c1_chain_raises_type_error :
    find_lines doc3 [0, 1, 2] (.iter [fun _ => true, fun _ => true]) true id id
        true true false false false =
      (.err .typeError : PRes (Option (List Nat ⊕ List (List Nat)))) ∧
    find_lines doc3 [0, 1, 2] (.iter [fun _ => false, fun _ => true]) true id id
        true true false false false =
      (.ok none : PRes (Option (List Nat ⊕ List (List Nat)))) := by
  constructor <;> decide

/-! ## Claim C2 -/

/-- C2: the claim that `find_parent_objects` with a plain-string
`parentspec` and a non-`None` `childspec` performs the parent/child search,
raising `ValueError` only for the 2-element-iterable-plus-childspec case,
fails: Python strings are iterable, so `_check_parentspec_childspec` raises
`ValueError` for every string `parentspec` combined with a `childspec`
(first conjunct).  The documented behaviour does hold for compiled-pattern
parentspecs (second and third conjuncts: positive and negative child
match). -/
theorem c2_string_parentspec_raises :
    find_parent_objects (fun _ _ => false) docP [0, 1] (.str "parent")
        (some (.str "child")) true false = .err .valueError ∧
    find_parent_objects (fun _ _ => false) docP [0, 1] (.pat fun s => s == "p")
        (some (.pat fun s => s == "c")) true false = .ok [0] ∧
    find_parent_objects (fun _ _ => false) docP [0, 1] (.pat fun s => s == "p")
        (some (.pat fun s => s == "c")) true true = .ok [] := by
  refine ⟨by decide, by decide, by decide⟩

/-! ## Claim C3 -/

/-- C3 counterexample: on a node whose stored sets are
`ip_addrs = {192.0.2.0}` and `ip_nets = {192.0.2.0/24}` (exactly what
`_create_ip_sets` produces for the line `"192.0.2.0/24"`), the address query
`192.0.2.5` is contained in the stored network but `has_ip` returns
`False` — the claimed containment disjunct does not exist in the code. -/
theorem c3_counterexample :
    ¬ (has_ip [.v4 3221225984] [.v4 3221225984 24] (.addr (.v4 3221225989)) = true ↔
        ((.v4 3221225989) ∈ ([.v4 3221225984] : List IPAddr) ∨
          ∃ n ∈ ([.v4 3221225984 24] : List IPNet),
            netContainsAddr n (.v4 3221225989) = true)) := by
  decide

/-- C3 amended: for every built node and every address query, `has_ip`
returns true iff the query equals one of the node's stored addresses (same
IP version and value); containment in the stored networks is not
consulted. -/
theorem c3_amended (ip_addrs : List IPAddr) (ip_nets : List IPNet) (q : IPAddr) :
    has_ip ip_addrs ip_nets (.addr q) = true ↔ q ∈ ip_addrs := by
  simp [has_ip]

/-! ## Claim C4 -/

/-- C4 counterexample: on the built three-node chain, `family` with
`include_all_descendants=True` differs between `include_children=True`
(full descendant list) and `include_children=False` (descendants dropped
entirely) — `include_all_descendants` does not supersede
`include_children`. -/
theorem c4_counterexample :
    parse_leading_spaces ["a", " b", "  c"] = .ok doc3 ∧
    family doc3 0 true true true = [0, 1, 2] ∧
    family doc3 0 true false true = [0] := by
  refine ⟨by decide, by decide, by decide⟩

/-- C4 amended: it is `include_children=False` that supersedes
`include_all_descendants`: with `include_children=False` the result is the
ancestors (when requested) plus the node itself, independent of
`include_all_descendants`. -/
theorem c4_amended (doc : List Entry) (i : Nat) (ia : Bool) :
    family doc i ia false true = (if ia then ancestors doc i else []) ++ [i] ∧
    family doc i ia false true = family doc i ia false false := by
  constructor <;> simp [family]

/-! ## Claim C7 -/

/-- C7: on every node of a built forest, `family()` with all defaults is
`ancestors + [self] + all_descendants`, where `ancestors` runs from the root
down to the immediate parent (source recursion `parent.ancestors +
[parent]`) and `all_descendants` is the pre-order list in which each child
is followed by its own descendants before the next sibling. -/
theorem c7_family_defaults (doc : List Entry) (i : Nat)
    (hwf : WfDoc doc) (hi : i < doc.length) :
    family doc i true true true = ancestors doc i ++ [i] ++ all_descendants doc i ∧
    all_descendants doc i =
      ((getE doc i).children.map (fun c => c :: all_descendants doc c)).flatten ∧
    (∀ p, (getE doc i).parent = some p → ancestors doc i = ancestors doc p ++ [p]) ∧
    ((getE doc i).parent = none → ancestors doc i = []) :=
  ⟨by simp [family], all_descendants_eq doc hwf i,
    fun p hp => ancestors_eq_parent doc hwf i p hp,
    fun hp => ancestors_eq_root doc i hp⟩

theorem c7_family_defaults_witness :
    family doc3 1 true true true = ancestors doc3 1 ++ [1] ++ all_descendants doc3 1 ∧
    all_descendants doc3 1 =
      ((getE doc3 1).children.map (fun c => c :: all_descendants doc3 c)).flatten ∧
    (∀ p, (getE doc3 1).parent = some p → ancestors doc3 1 = ancestors doc3 p ++ [p]) ∧
    ((getE doc3 1).parent = none → ancestors doc3 1 = []) :=
  c7_family_defaults doc3 1 (by decide) (by decide)

/-! ## Claim C8 -/

theorem suppressorRun_length (prev : List Entry) (fams : List (List Entry)) :
    (suppressorRun prev fams).length = fams.length := by
  induction fams generalizing prev with
  | nil => rfl
  | cons fam rest ih => simp [suppressorRun, ih]

theorem suppressorRun_getD (prev : List Entry) (fams : List (List Entry)) (k : Nat)
    (hk : k < fams.length) :
    (suppressorRun prev fams).getD k [] =
      (fams.getD k []).filter
        (fun x => !((if k = 0 then prev else fams.getD (k - 1) []).any (fun p => dlEq x p))) := by
  induction fams generalizing prev k with
  | nil => simp at hk
  | cons fam rest ih =>
    cases k with
    | zero => simp [suppressorRun, suppress_common_lines]
    | succ k =>
      have hk' : k < rest.length := by simpa using hk
      have hrec := ih fam k hk'
      simp only [suppressorRun, suppress_common_lines, List.getD_cons_succ] at hrec ⊢
      rw [hrec]
      congr 2
      cases k with
      | zero => simp
      | succ k => simp [List.getD_cons_succ]

/-- C8: through one `common_line_suppressor` instance, the k-th call returns
the k-th family list with exactly the nodes removed that occur (by
`DocumentLine` equality) in the unfiltered (k-1)-th list (nothing is removed
from the first), so a node reappearing after an intervening list that did
not contain it is not suppressed. -/
theorem c8_suppressor (fams : List (List Entry)) (k : Nat) (hk : k < fams.length) :
    (suppressorRun [] fams).length = fams.length ∧
    (suppressorRun [] fams).getD k [] =
      (fams.getD k []).filter
        (fun x => !((if k = 0 then ([] : List Entry) else fams.getD (k - 1) []).any
          (fun p => dlEq x p))) :=
  ⟨suppressorRun_length [] fams, suppressorRun_getD [] fams k hk⟩

theorem c8_suppressor_witness :
    2 < cFams.length ∧
    ((suppressorRun [] cFams).length = cFams.length ∧
     (suppressorRun [] cFams).getD 2 [] =
       (cFams.getD 2 []).filter
         (fun x => !((if 2 = 0 then ([] : List Entry) else cFams.getD (2 - 1) []).any
           (fun p => dlEq x p)))) :=
  ⟨by decide, c8_suppressor cFams 2 (by decide)⟩

/-! ## Claim C9 -/

/-- C9 counterexample: the claim defines a comment by the *trimmed* text
starting with `!` or `#`.  The code tests the raw line.  On `c9cfg` the
claimed detector (comment test on the trimmed text, otherwise identical)
skips every line and selects Indentation, while the code counts them and
selects Braced. -/
theorem c9_counterexample :
    autodetectChoice c9cfg 0 (0, 0, 0) = .braced ∧
    choiceWith (fun l => pyStartsWith (pyLstrip l) "!" || pyStartsWith (pyLstrip l) "#")
      c9cfg 0 (0, 0, 0) = .indentation := by
  constructor <;> decide

theorem autodetectChoice_cons (line : String) (rest : List String) (lc o c s : Nat) :
    autodetectChoice (line :: rest) lc (o, c, s) =
      if pyStartsWith line "#" || pyStartsWith line "!" then
        autodetectChoice rest lc (o, c, s)
      else
        if (if pyEndsWith (pyRstrip line) "\x7b" then o + 1 else o) > 3 &&
           (if pyEndsWith (pyRstrip line) "\x7d" then c + 1 else c) > 3 &&
           (if pyEndsWith (pyRstrip line) ";" then s + 1 else s) > 3 then .braced
        else if lc + 1 == 50 then .indentation
        else autodetectChoice rest (lc + 1)
          (if pyEndsWith (pyRstrip line) "\x7b" then o + 1 else o,
           if pyEndsWith (pyRstrip line) "\x7d" then c + 1 else c,
           if pyEndsWith (pyRstrip line) ";" then s + 1 else s) := rfl

theorem autodetect_braced_iff (cfg : List String) :
    ∀ lc o c s : Nat, lc < 50 → ¬(3 < o ∧ 3 < c ∧ 3 < s) →
      (autodetectChoice cfg lc (o, c, s) = .braced ↔
        (3 < o + ((cfg.filter (fun l => !(pyStartsWith l "#" || pyStartsWith l "!"))).take
              (50 - lc)).countP (fun l => pyEndsWith (pyRstrip l) "\x7b") ∧
         3 < c + ((cfg.filter (fun l => !(pyStartsWith l "#" || pyStartsWith l "!"))).take
              (50 - lc)).countP (fun l => pyEndsWith (pyRstrip l) "\x7d") ∧
         3 < s + ((cfg.filter (fun l => !(pyStartsWith l "#" || pyStartsWith l "!"))).take
              (50 - lc)).countP (fun l => pyEndsWith (pyRstrip l) ";"))) := by
  induction cfg with
  | nil =>
    intro lc o c s hlc hn
    simp only [autodetectChoice, List.filter_nil, List.take_nil, List.countP_nil,
      Nat.add_zero]
    constructor
    · intro h
      exact nomatch h
    · intro h
      exact absurd h hn
  | cons line rest ih =>
    intro lc o c s hlc hn
    by_cases hcom : (pyStartsWith line "#" || pyStartsWith line "!") = true
    · rw [autodetectChoice_cons, if_pos hcom]
      have hneg : (!(pyStartsWith line "#" || pyStartsWith line "!")) = false := by
        rw [hcom]; rfl
      have hfil : List.filter (fun l => !(pyStartsWith l "#" || pyStartsWith l "!"))
          (line :: rest) =
          List.filter (fun l => !(pyStartsWith l "#" || pyStartsWith l "!")) rest := by
        simp only [List.filter_cons, hneg, Bool.false_eq_true, if_false]
      rw [hfil]
      exact ih lc o c s hlc hn
    · rw [autodetectChoice_cons, if_neg hcom]
      have hcomF : (pyStartsWith line "#" || pyStartsWith line "!") = false := by
        simpa using hcom
      have hpos : (!(pyStartsWith line "#" || pyStartsWith line "!")) = true := by
        rw [hcomF]; rfl
      have hfil : List.filter (fun l => !(pyStartsWith l "#" || pyStartsWith l "!"))
          (line :: rest) =
          line :: List.filter (fun l => !(pyStartsWith l "#" || pyStartsWith l "!")) rest := by
        simp only [List.filter_cons, hpos, if_true]
      have htk : 50 - lc = (49 - lc) + 1 := by omega
      rw [hfil, htk, List.take_succ_cons, List.countP_cons, List.countP_cons,
        List.countP_cons]
      have shift : ∀ (a X : Nat) (b : Bool),
          (3 < a + (X + if b then 1 else 0)) ↔ (3 < (if b then a + 1 else a) + X) := by
        intro a X b
        cases b <;> simp <;> omega
      rw [shift o _ _, shift c _ _, shift s _ _]
      generalize (if pyEndsWith (pyRstrip line) "\x7b" then o + 1 else o) = o'
      generalize (if pyEndsWith (pyRstrip line) "\x7d" then c + 1 else c) = c'
      generalize (if pyEndsWith (pyRstrip line) ";" then s + 1 else s) = s'
      by_cases hb : 3 < o' ∧ 3 < c' ∧ 3 < s'
      · have hcond : (o' > 3 && c' > 3 && s' > 3) = true := by
          simp [hb.1, hb.2.1, hb.2.2]
        rw [if_pos hcond]
        exact ⟨fun _ => ⟨by omega, by omega, by omega⟩, fun _ => rfl⟩
      · have hcond : ¬((o' > 3 && c' > 3 && s' > 3) = true) := by
          simp only [Bool.and_eq_true, decide_eq_true_eq]
          intro hh
          exact hb ⟨hh.1.1, hh.1.2, hh.2⟩
        rw [if_neg hcond]
        by_cases h50 : lc + 1 = 50
        · have hbeq : ((lc + 1) == 50) = true := by simp only [beq_iff_eq]; omega
          rw [if_pos hbeq]
          constructor
          · intro h
            exact nomatch h
          · intro hR
            have h0 : 49 - lc = 0 := by omega
            rw [h0] at hR
            simp only [List.take_zero, List.countP_nil, Nat.add_zero] at hR
            exact absurd hR hb
        · have hbeq : ¬(((lc + 1) == 50) = true) := by simp only [beq_iff_eq]; omega
          rw [if_neg hbeq]
          rw [ih (lc + 1) o' c' s' (by omega) hb]
          have h49 : 50 - (lc + 1) = 49 - lc := by omega
          rw [h49]

/-- C9 amended: the detector scans at most the first 50 lines that do not
*start* with `!` or `#` (raw text, no trimming — that is the only change the
counterexample forces on the claim), counts among them the lines whose last
non-space character is `{`, `}`, `;`, and selects Braced exactly when all
three counts exceed 3; otherwise Indentation. -/
theorem c9_amended (cfg : List String) :
    (autodetectChoice cfg 0 (0, 0, 0) = .braced ↔
      (3 < ((cfg.filter (fun l => !(pyStartsWith l "#" || pyStartsWith l "!"))).take
            50).countP (fun l => pyEndsWith (pyRstrip l) "\x7b") ∧
       3 < ((cfg.filter (fun l => !(pyStartsWith l "#" || pyStartsWith l "!"))).take
            50).countP (fun l => pyEndsWith (pyRstrip l) "\x7d") ∧
       3 < ((cfg.filter (fun l => !(pyStartsWith l "#" || pyStartsWith l "!"))).take
            50).countP (fun l => pyEndsWith (pyRstrip l) ";"))) ∧
    (autodetectChoice cfg 0 (0, 0, 0) = .braced ∨
     autodetectChoice cfg 0 (0, 0, 0) = .indentation) := by
  constructor
  · have h := autodetect_braced_iff cfg 0 0 0 0 (by omega) (by omega)
    simpa using h
  · cases autodetectChoice cfg 0 (0, 0, 0) with
    | braced => exact Or.inl rfl
    | indentation => exact Or.inr rfl
/-! ## Claim C5 -/

/-- C5 counterexample: on `["a", " b", "   c"]` the third line's computed
level is 3 while the stored level before it is 1 (a jump of more than one
step); the anomaly is logged and the previous node pushed, but after the
line the stored current level is 3 — not the claimed `currentLevel + 1 = 2`. -/
theorem c5_counterexample :
    (lsFrom ["a", " b"] 1 initLS).map
        (fun t => (t.current_space_level, lsEffLevel t "   c")) = .ok (1, 3) ∧
    (lsFrom ["a", " b", "   c"] 1 initLS).map
        (fun t => (t.current_space_level, t.warnings)) = .ok (3, ["level_jump"]) := by
  constructor <;> decide

theorem lsAttach_level (s : LSState) (lc : Nat) (line : String) (s' : LSState)
    (h : lsAttach s lc line = .ok s') :
    s'.current_space_level = s.current_space_level ∧ s'.warnings = s.warnings := by
  unfold lsAttach at h
  cases hl : s.dn_stack.getLast? with
  | none =>
    rw [hl] at h
    cases h
    exact ⟨rfl, rfl⟩
  | some o =>
    cases o with
    | none =>
      rw [hl] at h
      cases h
    | some p =>
      rw [hl] at h
      cases h
      exact ⟨rfl, rfl⟩

theorem lsPhaseC_level (s : LSState) (line : String) (s' : LSState)
    (h : lsPhaseC s line = .ok s') :
    s'.current_space_level = s.current_space_level ∧ s'.warnings = s.warnings := by
  unfold lsPhaseC at h
  repeat' split at h
  all_goals cases h
  all_goals repeat' split
  all_goals exact ⟨rfl, rfl⟩

theorem lsLevelTransition_incr (t : LSState) (nl : Nat)
    (hlt : t.current_space_level < nl) (hne : t.current_space_level + 1 ≠ nl) :
    lsLevelTransition t nl =
      { t with current_space_level := nl,
               dn_stack := t.dn_stack ++ [t.current_dn],
               warnings := t.warnings ++ ["level_jump"] } := by
  simp only [lsLevelTransition]
  rw [if_pos hlt, if_pos hne, if_neg (show ¬(t.current_space_level > nl) by omega)]

theorem lsPhaseA_jump (s : LSState) (line : String) (s₁ : LSState)
    (hjump : s.current_space_level + 1 < lsEffLevel s line)
    (hA : lsPhaseA s line = .ok s₁) :
    s₁.current_space_level = lsEffLevel s line ∧
    s₁.dn_stack = s.dn_stack ++ [s.current_dn] ∧
    s₁.warnings.count "level_jump" = s.warnings.count "level_jump" + 1 := by
  have hc1 : ¬((s.ignore_space_levels &&
      (pyStartsWith line " " || pyStartsWith line "end-")) = true) := by
    intro hc
    have h1 : lsEffLevel s line = 1 := by
      unfold lsEffLevel
      rw [if_pos hc]
    omega
  have hlt : s.current_space_level < lsEffLevel s line := by omega
  have hne : s.current_space_level + 1 ≠ lsEffLevel s line := by omega
  simp only [lsPhaseA] at hA
  rw [if_neg hc1] at hA
  by_cases hc2 : s.ignore_space_levels = true
  · rw [if_pos hc2] at hA
    cases hl : s.dn_stack.getLast? with
    | none =>
      simp only [hl] at hA
      cases hA
    | some o =>
      simp only [hl] at hA
      rw [lsLevelTransition_incr
        ⟨lsMult s line, s.current_space_level, s.dn_list, s.dn_stack, s.current_dn,
          s.banner_delimiter, false, s.warnings ++ ["unterminated_region"]⟩
        (lsEffLevel s line) hlt hne] at hA
      cases hA
      refine ⟨rfl, rfl, ?_⟩
      simp [List.count_append, List.count_cons,
        show (("unterminated_region" : String) == "level_jump") = false from by decide,
        show (("level_jump" : String) == "level_jump") = true from by decide]
  · rw [if_neg hc2] at hA
    rw [lsLevelTransition_incr
      ⟨lsMult s line, s.current_space_level, s.dn_list, s.dn_stack, s.current_dn,
        s.banner_delimiter, s.ignore_space_levels, s.warnings⟩
      (lsEffLevel s line) hlt hne] at hA
    cases hA
    refine ⟨rfl, rfl, ?_⟩
    simp [List.count_append, List.count_cons,
      show (("level_jump" : String) == "level_jump") = true from by decide]

/-- C5 amended: when a line's computed effective level exceeds the current
level by more than one step, the builder logs the "level jumped" anomaly
(exactly one new `level_jump` warning) and pushes the previous line's node
onto the ancestor stack, but it does *not* clamp the stored level: the
stored current level after processing the line is the full computed level,
not `currentLevel + 1`. -/
theorem c5_amended (s : LSState) (lc : Nat) (raw : String) (s' : LSState)
    (hjump : s.current_space_level + 1 < lsEffLevel s (pyRstrip raw))
    (hstep : lsStep s lc raw = .ok s') :
    s'.current_space_level = lsEffLevel s (pyRstrip raw) ∧
    s'.warnings.count "level_jump" = s.warnings.count "level_jump" + 1 ∧
    (lsPhaseA s (pyRstrip raw)).map (fun t => t.dn_stack) =
      .ok (s.dn_stack ++ [s.current_dn]) := by
  simp only [lsStep] at hstep
  cases hA : lsPhaseA s (pyRstrip raw) with
  | err e =>
    simp only [hA] at hstep
    cases hstep
  | ok s₁ =>
    simp only [hA] at hstep
    cases hB : lsAttach s₁ lc (pyRstrip raw) with
    | err e =>
      simp only [hB] at hstep
      cases hstep
    | ok s₂ =>
      simp only [hB] at hstep
      obtain ⟨h1, h2, h3⟩ := lsPhaseA_jump s (pyRstrip raw) s₁ hjump hA
      obtain ⟨hb1, hb2⟩ := lsAttach_level s₁ lc (pyRstrip raw) s₂ hB
      obtain ⟨hc1, hc2⟩ := lsPhaseC_level s₂ (pyRstrip raw) s' hstep
      refine ⟨?_, ?_, ?_⟩
      · rw [hc1, hb1, h1]
      · rw [hc2, hb2, h3]
      · show PRes.ok s₁.dn_stack = PRes.ok (s.dn_stack ++ [s.current_dn])
        exact congrArg PRes.ok h2

theorem c5_amended_witness :
    sW.current_space_level + 1 < lsEffLevel sW (pyRstrip "   c") ∧
    (sW'.current_space_level = lsEffLevel sW (pyRstrip "   c") ∧
     sW'.warnings.count "level_jump" = sW.warnings.count "level_jump" + 1 ∧
     (lsPhaseA sW (pyRstrip "   c")).map (fun t => t.dn_stack) =
       .ok (sW.dn_stack ++ [sW.current_dn])) :=
  ⟨by decide, c5_amended sW 3 "   c" sW' (by decide) (by decide)⟩

/-! ## Claim C6 -/

theorem addChildAt_map_lineNum (l : List Entry) (p c : Nat) :
    (addChildAt l p c).map (fun e => e.line_num) = l.map (fun e => e.line_num) := by
  induction l generalizing p with
  | nil => rfl
  | cons e es ih =>
    cases p with
    | zero => simp [addChildAt]
    | succ p => simp [addChildAt, ih p]

theorem parseBracedStep_lineNums (st st' : BrState) (lc : Nat) (raw : String)
    (h : parseBracedStep st lc raw = .ok st') :
    lineNums st'.dn_list = lineNums st.dn_list ++ [lc] := by
  simp only [parseBracedStep] at h
  repeat' split at h
  all_goals cases h
  all_goals simp [lineNums, List.map_append, addChildAt_map_lineNum]

theorem parseBracedFrom_inv (cfg : List String) :
    ∀ (st res : BrState),
      lineNums st.dn_list = List.range' 1 st.dn_list.length →
      parseBracedFrom cfg (st.dn_list.length + 1) st = .ok res →
      lineNums res.dn_list = List.range' 1 res.dn_list.length ∧
      res.dn_list.length = st.dn_list.length + cfg.length := by
  induction cfg with
  | nil =>
    intro st res h1 h
    cases h
    exact ⟨h1, by simp⟩
  | cons raw rest ih =>
    intro st res h1 h
    simp only [parseBracedFrom] at h
    cases hs : parseBracedStep st (st.dn_list.length + 1) raw with
    | err e =>
      rw [hs] at h
      cases h
    | ok st' =>
      rw [hs] at h
      have hln := parseBracedStep_lineNums st st' (st.dn_list.length + 1) raw hs
      have hlen : st'.dn_list.length = st.dn_list.length + 1 := by
        have hc := congrArg List.length hln
        simpa [lineNums] using hc
      have h1' : lineNums st'.dn_list = List.range' 1 st'.dn_list.length := by
        rw [hln, h1, hlen, List.range'_1_concat, Nat.add_comm 1 st.dn_list.length]
      have h' : parseBracedFrom rest (st'.dn_list.length + 1) st' = .ok res := by
        rw [hlen]
        exact h
      obtain ⟨ha, hb⟩ := ih st' res h1' h'
      refine ⟨ha, ?_⟩
      simp only [List.length_cons]
      omega

theorem lsLevelTransition_dn_list (t : LSState) (nl : Nat) :
    (lsLevelTransition t nl).dn_list = t.dn_list := by
  simp only [lsLevelTransition]
  repeat' split
  all_goals rfl

theorem lsPhaseA_dn_list (s : LSState) (line : String) (s₁ : LSState)
    (h : lsPhaseA s line = .ok s₁) : s₁.dn_list = s.dn_list := by
  simp only [lsPhaseA] at h
  repeat' split at h
  all_goals cases h
  all_goals exact lsLevelTransition_dn_list _ _

theorem lsPhaseC_dn_list (s : LSState) (line : String) (s' : LSState)
    (h : lsPhaseC s line = .ok s') : s'.dn_list = s.dn_list := by
  unfold lsPhaseC at h
  repeat' split at h
  all_goals cases h
  all_goals repeat' split
  all_goals rfl

theorem lsAttach_lineNums (s : LSState) (lc : Nat) (line : String) (s' : LSState)
    (h : lsAttach s lc line = .ok s') :
    lineNums s'.dn_list = lineNums s.dn_list ++ [lc] ∧
    s'.dn_list.length = s.dn_list.length + 1 := by
  unfold lsAttach at h
  cases hl : s.dn_stack.getLast? with
  | none =>
    rw [hl] at h
    cases h
    constructor
    · simp [lineNums, List.map_append]
    · simp
  | some o =>
    cases o with
    | none =>
      rw [hl] at h
      cases h
    | some p =>
      rw [hl] at h
      cases h
      constructor
      · simp [lineNums, List.map_append, addChildAt_map_lineNum]
      · have hc := congrArg List.length (addChildAt_map_lineNum s.dn_list p s.dn_list.length)
        simp only [List.length_map] at hc
        simp [hc]

theorem lsStep_lineNums (s : LSState) (lc : Nat) (raw : String) (s' : LSState)
    (h : lsStep s lc raw = .ok s') :
    lineNums s'.dn_list = lineNums s.dn_list ++ [lc] := by
  simp only [lsStep] at h
  cases hA : lsPhaseA s (pyRstrip raw) with
  | err e =>
    simp only [hA] at h
    cases h
  | ok s₁ =>
    simp only [hA] at h
    cases hB : lsAttach s₁ lc (pyRstrip raw) with
    | err e =>
      simp only [hB] at h
      cases h
    | ok s₂ =>
      simp only [hB] at h
      rw [lsPhaseC_dn_list s₂ (pyRstrip raw) s' h,
        (lsAttach_lineNums s₁ lc (pyRstrip raw) s₂ hB).1,
        lsPhaseA_dn_list s (pyRstrip raw) s₁ hA]

theorem lsFrom_inv (cfg : List String) :
    ∀ (st res : LSState),
      lineNums st.dn_list = List.range' 1 st.dn_list.length →
      lsFrom cfg (st.dn_list.length + 1) st = .ok res →
      lineNums res.dn_list = List.range' 1 res.dn_list.length ∧
      res.dn_list.length = st.dn_list.length + cfg.length := by
  induction cfg with
  | nil =>
    intro st res h1 h
    cases h
    exact ⟨h1, by simp⟩
  | cons raw rest ih =>
    intro st res h1 h
    simp only [lsFrom] at h
    cases hs : lsStep st (st.dn_list.length + 1) raw with
    | err e =>
      rw [hs] at h
      cases h
    | ok st' =>
      rw [hs] at h
      have hln := lsStep_lineNums st (st.dn_list.length + 1) raw st' hs
      have hlen : st'.dn_list.length = st.dn_list.length + 1 := by
        have hc := congrArg List.length hln
        simpa [lineNums] using hc
      have h1' : lineNums st'.dn_list = List.range' 1 st'.dn_list.length := by
        rw [hln, h1, hlen, List.range'_1_concat, Nat.add_comm 1 st.dn_list.length]
      have h' : lsFrom rest (st'.dn_list.length + 1) st' = .ok res := by
        rw [hlen]
        exact h
      obtain ⟨ha, hb⟩ := ih st' res h1' h'
      refine ⟨ha, ?_⟩
      simp only [List.length_cons]
      omega

/-- C6: whichever build strategy returns (indentation or braced), the flat
node list has exactly one node per input line: its length is the number of
input lines, the `line_num` fields are exactly `1, 2, ..., N` in order, and
the node at 0-based index `i` carries `line_num = i + 1`. -/
theorem c6_round_trip (cfg : List String) (l : List Entry)
    (h : parse_leading_spaces cfg = .ok l ∨ parse_braced cfg = .ok l) :
    l.length = cfg.length ∧
    lineNums l = List.range' 1 cfg.length ∧
    ∀ i, i < l.length → (getE l i).line_num = i + 1 := by
  have key : lineNums l = List.range' 1 l.length ∧ l.length = cfg.length := by
    cases h with
    | inl h =>
      unfold parse_leading_spaces at h
      cases hr : lsFrom cfg 1 initLS with
      | err e =>
        rw [hr] at h
        cases h
      | ok st =>
        rw [hr] at h
        cases h
        have := lsFrom_inv cfg initLS st rfl hr
        simpa [initLS] using this
    | inr h =>
      unfold parse_braced at h
      cases hr : parseBracedFrom cfg 1 ⟨[], []⟩ with
      | err e =>
        rw [hr] at h
        cases h
      | ok st =>
        rw [hr] at h
        cases h
        have := parseBracedFrom_inv cfg ⟨[], []⟩ st rfl hr
        simpa using this
  refine ⟨key.2, by rw [key.1, key.2], fun i hi => ?_⟩
  have hv : (lineNums l)[i]? = some ((getE l i).line_num) := by
    simp [lineNums, getE, List.getD, List.getElem?_eq_getElem hi]
  have hr : (lineNums l)[i]? = some (1 + 1 * i) := by
    rw [key.1]
    exact List.getElem?_range' 1 1 hi
  have hval := Option.some.inj (hv.symm.trans hr)
  omega

theorem c6_round_trip_witness :
    doc3.length = (["a", " b", "  c"] : List String).length ∧
    lineNums doc3 = List.range' 1 (["a", " b", "  c"] : List String).length ∧
    ∀ i, i < doc3.length → (getE doc3 i).line_num = i + 1 :=
  c6_round_trip ["a", " b", "  c"] doc3 (Or.inl (by decide))

/-! ## Claim C10 -/

theorem open_close_mutex (raw : String) :
    ¬(bracedOpenLine raw = true ∧ bracedCloseLine raw = true) := by
  rintro ⟨ho, hc⟩
  have h1 : pyEndsWith (pyRstrip raw) "\x7b" = true := by
    simp only [bracedOpenLine, Bool.and_eq_true] at ho
    exact ho.1
  have h2 : pyEndsWith (pyRstrip raw) "\x7d" = true := by
    simp only [bracedCloseLine, Bool.and_eq_true] at hc
    exact hc.1
  unfold pyEndsWith at h1 h2
  cases hL : (pyRstrip raw).data.reverse with
  | nil =>
    rw [hL] at h1
    exact nomatch h1
  | cons ch t =>
    rw [hL] at h1 h2
    have e1 : ('{' == ch) = true := by
      have := h1
      simp only [listPre, Bool.and_eq_true] at this
      exact this.1
    have e2 : ('}' == ch) = true := by
      have := h2
      simp only [listPre, Bool.and_eq_true] at this
      exact this.1
    rw [beq_iff_eq] at e1 e2
    rw [← e1] at e2
    exact nomatch e2

theorem parseBracedStep_close_err (st : BrState) (lc : Nat) (raw : String)
    (hc : bracedCloseLine raw = true) (hs : st.dn_stack = []) :
    parseBracedStep st lc raw = .err .indexError := by
  have ho : bracedOpenLine raw = false := by
    by_contra hx
    exact open_close_mutex raw ⟨by simpa using hx, hc⟩
  simp only [parseBracedStep]
  rw [show (pyEndsWith (pyRstrip raw) "\x7b" && !pyStartsWith (pyLstrip (pyRstrip raw)) "#") =
    bracedOpenLine raw from rfl]
  rw [show (pyEndsWith (pyRstrip raw) "\x7d" && !pyStartsWith (pyLstrip (pyRstrip raw)) "#") =
    bracedCloseLine raw from rfl]
  rw [ho, hc]
  simp [hs]

theorem parseBracedStep_close_ok (st : BrState) (lc : Nat) (raw : String)
    (hc : bracedCloseLine raw = true) (hs : st.dn_stack ≠ []) :
    ∃ st', parseBracedStep st lc raw = .ok st' ∧
      st'.dn_stack.length + 1 = st.dn_stack.length := by
  have ho : bracedOpenLine raw = false := by
    by_contra hx
    exact open_close_mutex raw ⟨by simpa using hx, hc⟩
  obtain ⟨x, hx⟩ : ∃ x, st.dn_stack.getLast? = some x := by
    cases hg : st.dn_stack.getLast? with
    | none => exact absurd (List.getLast?_eq_none_iff.mp hg) hs
    | some x => exact ⟨x, rfl⟩
  simp only [parseBracedStep]
  rw [show (pyEndsWith (pyRstrip raw) "\x7b" && !pyStartsWith (pyLstrip (pyRstrip raw)) "#") =
    bracedOpenLine raw from rfl]
  rw [show (pyEndsWith (pyRstrip raw) "\x7d" && !pyStartsWith (pyLstrip (pyRstrip raw)) "#") =
    bracedCloseLine raw from rfl]
  rw [ho, hc]
  simp only [Bool.false_eq_true, if_false, if_true]
  rw [hx]
  refine ⟨_, rfl, ?_⟩
  have hlen : st.dn_stack.length ≠ 0 := by
    intro h0
    exact hs (List.length_eq_zero.mp h0)
  simp only [List.length_dropLast]
  omega

theorem parseBracedStep_noclose (st : BrState) (lc : Nat) (raw : String)
    (hc : bracedCloseLine raw = false) :
    ∃ st', parseBracedStep st lc raw = .ok st' ∧
      st'.dn_stack.length =
        st.dn_stack.length + (if bracedOpenLine raw then 1 else 0) := by
  simp only [parseBracedStep]
  rw [show (pyEndsWith (pyRstrip raw) "\x7b" && !pyStartsWith (pyLstrip (pyRstrip raw)) "#") =
    bracedOpenLine raw from rfl]
  rw [show (pyEndsWith (pyRstrip raw) "\x7d" && !pyStartsWith (pyLstrip (pyRstrip raw)) "#") =
    bracedCloseLine raw from rfl]
  rw [hc]
  simp only [Bool.false_eq_true, if_false]
  cases st.dn_stack.getLast? with
  | none =>
    by_cases ho : bracedOpenLine raw = true
    · rw [if_pos ho]
      exact ⟨_, rfl, by simp [ho]⟩
    · rw [if_neg ho]
      refine ⟨_, rfl, ?_⟩
      have ho' : bracedOpenLine raw = false := by simpa using ho
      simp [ho']
  | some p =>
    by_cases ho : bracedOpenLine raw = true
    · rw [if_pos ho]
      exact ⟨_, rfl, by simp [ho]⟩
    · rw [if_neg ho]
      refine ⟨_, rfl, ?_⟩
      have ho' : bracedOpenLine raw = false := by simpa using ho
      simp [ho']

theorem closesLe_cons_iff (raw : String) (rest : List String) (d : Nat) :
    closesLe (raw :: rest) d ↔
      ((if bracedCloseLine raw then 1 else 0) ≤
          d + (if bracedOpenLine raw then 1 else 0) ∧
        closesLe rest (d + (if bracedOpenLine raw then 1 else 0) -
          (if bracedCloseLine raw then 1 else 0))) := by
  constructor
  · intro H
    have h1 := H 1
    simp only [List.take_succ_cons, List.take_zero, List.countP_cons, List.countP_nil,
      Nat.zero_add] at h1
    constructor
    · by_cases hc : bracedCloseLine raw = true <;> by_cases ho : bracedOpenLine raw = true <;>
        simp only [hc, ho, if_true, if_false] at h1 ⊢ <;> omega
    · intro k
      have hk := H (k + 1)
      simp only [List.take_succ_cons, List.countP_cons] at hk
      by_cases hc : bracedCloseLine raw = true <;> by_cases ho : bracedOpenLine raw = true <;>
        simp only [hc, ho, if_true, if_false] at hk h1 ⊢ <;> omega
  · rintro ⟨h1, H⟩
    intro k
    cases k with
    | zero => simp
    | succ k =>
      have hk := H k
      simp only [List.take_succ_cons, List.countP_cons]
      by_cases hc : bracedCloseLine raw = true <;> by_cases ho : bracedOpenLine raw = true <;>
        simp only [hc, ho, if_true, if_false] at hk h1 ⊢ <;> omega

theorem parseBracedFrom_ok_iff (cfg : List String) :
    ∀ (lc : Nat) (st : BrState),
      ((∃ res, parseBracedFrom cfg lc st = .ok res) ↔ closesLe cfg st.dn_stack.length) ∧
      (∀ e, parseBracedFrom cfg lc st = .err e → e = .indexError) := by
  induction cfg with
  | nil =>
    intro lc st
    refine ⟨⟨fun _ k => by simp, fun _ => ⟨st, rfl⟩⟩, fun e h => ?_⟩
    exact nomatch h
  | cons raw rest ih =>
    intro lc st
    by_cases hc : bracedCloseLine raw = true
    · by_cases hs : st.dn_stack = []
      · have hstep := parseBracedStep_close_err st lc raw hc hs
        have hform : parseBracedFrom (raw :: rest) lc st = .err .indexError := by
          simp only [parseBracedFrom, hstep]
        constructor
        · constructor
          · rintro ⟨res, hres⟩
            rw [hform] at hres
            exact nomatch hres
          · intro H
            exfalso
            have ho : bracedOpenLine raw = false := by
              by_contra hx
              exact open_close_mutex raw ⟨by simpa using hx, hc⟩
            have h1 := H 1
            simp [List.take_succ_cons, hc, ho, hs] at h1
        · intro e he
          rw [hform] at he
          cases he
          rfl
      · obtain ⟨st', hstep, hlen⟩ := parseBracedStep_close_ok st lc raw hc hs
        have hform : parseBracedFrom (raw :: rest) lc st = parseBracedFrom rest (lc + 1) st' := by
          simp only [parseBracedFrom, hstep]
        obtain ⟨hiff, herr⟩ := ih (lc + 1) st'
        have ho : bracedOpenLine raw = false := by
          by_contra hx
          exact open_close_mutex raw ⟨by simpa using hx, hc⟩
        constructor
        · rw [hform, hiff, closesLe_cons_iff]
          rw [hc, ho]
          simp only [if_true, Bool.false_eq_true, if_false, Nat.add_zero]
          constructor
          · intro H
            exact ⟨by omega, by rw [show st.dn_stack.length - 1 = st'.dn_stack.length by omega]; exact H⟩
          · rintro ⟨-, H⟩
            rw [show st.dn_stack.length - 1 = st'.dn_stack.length by omega] at H
            exact H
        · intro e he
          rw [hform] at he
          exact herr e he
    · have hc' : bracedCloseLine raw = false := by simpa using hc
      obtain ⟨st', hstep, hlen⟩ := parseBracedStep_noclose st lc raw hc'
      have hform : parseBracedFrom (raw :: rest) lc st = parseBracedFrom rest (lc + 1) st' := by
        simp only [parseBracedFrom, hstep]
      obtain ⟨hiff, herr⟩ := ih (lc + 1) st'
      constructor
      · rw [hform, hiff, closesLe_cons_iff]
        rw [hc']
        simp only [Bool.false_eq_true, if_false, Nat.zero_le, true_and, Nat.sub_zero]
        rw [← hlen]
      · intro e he
        rw [hform] at he
        exact herr e he

/-- C10: `parse_braced` is partial.  A closing-brace line (rstripped text
ending in `}`, left-stripped text not starting with `#`) processed while no
brace-opened block is on the stack pops an empty list and the build aborts
with `IndexError` — witnessed by the input `["\x7d"]`; the only error
`parse_braced` can raise is that `IndexError`; and it returns a node list
exactly when every prefix of the input has at least as many opening lines as
closing lines. -/
theorem c10_braced_unbalanced (cfg : List String) :
    parse_braced ["\x7d"] = .err .indexError ∧
    ((∃ l, parse_braced cfg = .ok l) ↔
      ∀ k, (cfg.take k).countP bracedCloseLine ≤ (cfg.take k).countP bracedOpenLine) ∧
    (∀ e, parse_braced cfg = .err e → e = .indexError) := by
  obtain ⟨hiff, herr⟩ := parseBracedFrom_ok_iff cfg 1 ⟨[], []⟩
  refine ⟨by decide, ?_, ?_⟩
  · unfold parse_braced
    constructor
    · rintro ⟨l, hl⟩
      have hex : ∃ res, parseBracedFrom cfg 1 ⟨[], []⟩ = .ok res := by
        cases hr : parseBracedFrom cfg 1 ⟨[], []⟩ with
        | err e =>
          rw [hr] at hl
          exact nomatch hl
        | ok st => exact ⟨st, rfl⟩
      have := hiff.mp hex
      intro k
      have hk := this k
      simpa using hk
    · intro H
      have hex := hiff.mpr (fun k => by simpa using H k)
      obtain ⟨res, hres⟩ := hex
      rw [hres]
      exact ⟨res.dn_list, rfl⟩
  · intro e he
    unfold parse_braced at he
    cases hr : parseBracedFrom cfg 1 ⟨[], []⟩ with
    | err e' =>
      rw [hr] at he
      injection he with hee
      rw [← hee]
      exact herr e' hr
    | ok st =>
      rw [hr] at he
      exact nomatch he

end NCP
